import Mathlib

/-!
Verification development for the tuntihinta-web price chart page
(`src/pages/index.tsx`).  The page assembles an hourly electricity-price
series from up to three per-day JSON records, schedules the next refetch
around the provider's 12:00 UTC publication time, locates the current hour
inside the series, and derives chart markers (current-hour box, day-boundary
lines, weekday labels).

Times are modelled as UTC epoch milliseconds (`Int`), exactly the value of a
JavaScript `Date`.  The locale functions `finnishDate` / `finnishWeekday`
(ICU calls in the source) are taken as explicit function parameters
`fd fw : Int → String`: the properties below are about the structure the
code builds on top of them, not about the ICU tables themselves.
-/

namespace Tuntihinta

/-- Days since 1970-01-01 of the civil date `(y, m, d)` (proleptic Gregorian,
`m` in 1..12).  Floor-division version of the standard civil-from-days
algorithm; linear in `d`, so an out-of-range day such as `d = 32` rolls into
the next month exactly like JavaScript `Date.setUTCDate`. -/
def daysFromCivil (y m d : Int) : Int :=
  let y1 := if m ≤ 2 then y - 1 else y
  let era := Int.fdiv y1 400
  let yoe := y1 - era * 400
  let mp := Int.fmod (m + 9) 12
  let doy := Int.fdiv (153 * mp + 2) 5 + d - 1
  let doe := yoe * 365 + Int.fdiv yoe 4 - Int.fdiv yoe 100 + doy
  era * 146097 + doe - 719468

/-- Civil date `(y, m, d)` (`m` in 1..12) of a count of days since
1970-01-01.  Inverse of `daysFromCivil`. -/
def civilFromDays (z0 : Int) : Int × Int × Int :=
  let z := z0 + 719468
  let era := Int.fdiv z 146097
  let doe := z - era * 146097
  let yoe := Int.fdiv (doe - Int.fdiv doe 1460 + Int.fdiv doe 36524 - Int.fdiv doe 146096) 365
  let y0 := yoe + era * 400
  let doy := doe - (365 * yoe + Int.fdiv yoe 4 - Int.fdiv yoe 100)
  let mp := Int.fdiv (5 * doy + 2) 153
  let d := doy - Int.fdiv (153 * mp + 2) 5 + 1
  let m := mp + (if mp < 10 then 3 else -9)
  (if m ≤ 2 then y0 + 1 else y0, m, d)

/-- Milliseconds per day. -/
def msPerDay : Int := 86400000

/-- Whole UTC days elapsed since the epoch at time `t` (ms). -/
def epochDays (t : Int) : Int := Int.fdiv t msPerDay

/-- JavaScript `Date.getUTCFullYear`. -/
def getUTCFullYear (t : Int) : Int := (civilFromDays (epochDays t)).1

/-- JavaScript `Date.getUTCMonth` (0-based, as in JS). -/
def getUTCMonth (t : Int) : Int := (civilFromDays (epochDays t)).2.1 - 1

/-- JavaScript `Date.getUTCDate` (day of month, 1-based). -/
def getUTCDate (t : Int) : Int := (civilFromDays (epochDays t)).2.2

/-- Epoch milliseconds of `y-m-d h:mi:00.000` UTC; convenience constructor
for concrete instants in the theorems below. -/
def utc (y m d h mi : Int) : Int :=
  daysFromCivil y m d * msPerDay + h * 3600000 + mi * 60000

/-! ## Data model (`DayPrice`, chart data points) -/

/-- One priced hour of a fetched per-day record: `startTime` is the parsed
epoch-ms value of the record's ISO timestamp string, `price` the raw
(tax-free) price.  Prices are modelled as rationals; the claims below never
depend on binary floating-point rounding. -/
structure HourPrice where
  startTime : Int
  price : ℚ
deriving DecidableEq, Repr

/-- A fetched per-day record (`DayPrice` in the source): the provider-local
calendar date string and that day's hour prices. -/
structure DayPrice where
  date : String
  hourPrices : List HourPrice
deriving DecidableEq, Repr

/-- One chart data point as built in `getStaticProps`:
`{ x: e.startTime, y: e.price * 1.24 }`.  The `label` field of the source
(`toFixed(0)` string formatting of `y`) is display formatting and carries no
extra information. -/
structure DataPoint where
  x : Int
  y : ℚ
deriving DecidableEq, Repr

/-- Placeholder data point: reading past the end of a JS array yields
`undefined`; the annotation code below only ever indexes in range, and this
default is what `List.getD` returns out of range. -/
def dummyPoint : DataPoint := ⟨0, 0⟩

/-- Tax multiplier applied to raw prices (`e.price * 1.24`). -/
def taxMultiplier : ℚ := 124 / 100

/-- The `.filter(isFulfilled).slice(-2)` step of `getStaticProps`: keep the
fulfilled fetches (in yesterday/today/tomorrow order) and of those only the
last two.  `slice(-2)` on a list of length ≤ 2 keeps everything, which is
exactly `drop (length - 2)` with truncated subtraction. -/
def assembleResults (settled : List (Option DayPrice)) : List DayPrice :=
  let fulfilled := settled.filterMap id
  fulfilled.drop (fulfilled.length - 2)

/-- The `results.flatMap(({hourPrices}) => hourPrices.map(...))` step of
`getStaticProps`: one chart point per hour price, with the tax-inclusive
value. -/
def buildDataset (results : List DayPrice) : List DataPoint :=
  results.flatMap fun dp => dp.hourPrices.map fun e => ⟨e.startTime, e.price * taxMultiplier⟩

/-- The `nextUpdate` computation of `getStaticProps` (lines 79–83):
start from "now", `setUTCHours(12,0,0,0)`, and advance to the next day via
`setUTCDate(now.getUTCDate() + 1)` when
`lastStartTime.getUTCDate() > now.getUTCDate() ||
 lastStartTime.getUTCMonth() > now.getUTCMonth()`.
Note the condition compares only the UTC day-of-month and month fields,
never the year. -/
def nextUpdateModel (lastStartTime now : Int) : Int :=
  let base := epochDays now * msPerDay + 12 * 3600000
  if getUTCDate lastStartTime > getUTCDate now ∨ getUTCMonth lastStartTime > getUTCMonth now then
    daysFromCivil (getUTCFullYear now) ((civilFromDays (epochDays now)).2.1)
      (getUTCDate now + 1) * msPerDay + 12 * 3600000
  else base

/-- The `dataValidForSeconds` computation of `getStaticProps` (line 85):
`Math.max(Math.floor((nextUpdate - now) / 1000), 60)`.  JS `Math.floor`
rounds toward −∞, i.e. `Int.fdiv`. -/
def dataValidForSeconds (lastStartTime now : Int) : Int :=
  max (Int.fdiv (nextUpdateModel lastStartTime now - now) 1000) 60

/-! ## The full `getStaticProps` cycle -/

/-- A JavaScript exception escaping `getStaticProps` uncaught.
`typeError` models a `TypeError` thrown by a property access on
`undefined` — there is no `try`/`catch` in the source, so such an
exception aborts the cycle. -/
inductive JsError where
  | typeError
deriving DecidableEq, Repr

/-- The colour chosen for one bar (`colorDataPoint`): first threshold table
entry whose `upperLimit` the value does not exceed, else the fallback red. -/
def colorDataPoint (value : ℚ) : String :=
  let colors : List (ℚ × String) :=
    [(5, "#087E8B"), (20, "#FFE548"), (40, "#FFB20F"), (60, "#FF7F27")]
  match colors.find? fun c => value ≤ c.1 with
  | some c => c.2
  | none => "#FF4B3E"

/-- The successful payload of `getStaticProps`: the chart dataset with its
per-bar colours, and the `revalidate` cache hint in seconds. -/
structure StaticProps where
  dataset : List DataPoint
  backgroundColor : List String
  revalidate : Int
deriving DecidableEq, Repr

/-- The pure core of `getStaticProps`, from the settled fetch results for
[yesterday, today, tomorrow] and the instant "now": keep the last two
fulfilled day records, flatten them into the dataset, read
`dataset.slice(-1)[0].x` — which on an empty dataset is a property access
on `undefined`, an uncaught `TypeError` — and compute the refresh hint. -/
def getStaticPropsModel (settled : List (Option DayPrice)) (now : Int) :
    Except JsError StaticProps :=
  let results := assembleResults settled
  let dataset := buildDataset results
  match dataset.getLast? with
  | none => .error .typeError
  | some last =>
    let lastStartTime := last.x
    .ok { dataset := dataset
          backgroundColor := dataset.map fun p => colorDataPoint p.y
          revalidate := dataValidForSeconds lastStartTime now }

/-! ## Current-position locator -/

/-- First index of `l` satisfying `p`, as an `Option`. -/
def findIdxO (p : α → Bool) : List α → Option Nat
  | [] => none
  | a :: t => if p a then some 0 else (findIdxO p t).map (· + 1)

/-- JavaScript `Array.prototype.findIndex`: first index satisfying the
predicate, or `-1`. -/
def jsFindIndex (p : α → Bool) (l : List α) : Int :=
  match findIdxO p l with
  | some i => (i : Int)
  | none => -1

/-- The hour interval of a data point contains `now`:
`now >= startTime && now < startTime + 1h`. -/
def inHourInterval (now start : Int) : Bool :=
  decide (start ≤ now) && decide (now < start + 3600000)

/-- `findCurrentTimeIndex`: index of the first data point whose interval
`[startTime, startTime + 1h)` contains "now", or `-1`.  "now" is threaded
explicitly (the source reads the clock at this point). -/
def findCurrentTimeIndex (data : List DataPoint) (now : Int) : Int :=
  jsFindIndex (fun point => inHourInterval now point.x) data

/-! ## Annotations -/

/-- The chart's y-axis cap (`maxPrice`). -/
def maxPrice : ℚ := 100

/-- Geometry and styling of the current-hour box (`annotateCurrentTime`'s
`type: 'box'` record). -/
structure BoxAnn where
  xMin : ℚ
  xMax : ℚ
  yMin : ℚ
  yMax : ℚ
  backgroundColor : String
  borderWidth : ℚ
deriving DecidableEq, Repr

/-- Geometry and styling of a day-boundary vertical line
(`annotateDayChanges`'s `type: 'line'` records). -/
structure LineAnn where
  yMin : ℚ
  yMax : ℚ
  xMin : ℚ
  xMax : ℚ
  borderColor : String
deriving DecidableEq, Repr

/-- Geometry and content of a weekday label (`annotateDayChanges`'s
`type: 'label'` records). -/
structure LabelAnn where
  xValue : ℚ
  position : String
  yValue : ℚ
  content : String
  color : String
deriving DecidableEq, Repr

/-- One chart marker, tagged by kind. -/
inductive Ann where
  | line (l : LineAnn)
  | label (l : LabelAnn)
deriving DecidableEq, Repr

/-- `annotateCurrentTime`: `null` when the locator misses, otherwise a box
spanning one index width horizontally and the full value range vertically. -/
def annotateCurrentTime (darkMode : Bool) (data : List DataPoint) (now : Int) :
    Option BoxAnn :=
  let currentIndex := findCurrentTimeIndex data now
  if currentIndex = -1 then none
  else some
    { xMin := (currentIndex : ℚ) - 0.5
      xMax := (currentIndex : ℚ) + 0.5
      yMin := 0
      yMax := maxPrice
      backgroundColor := if darkMode then "rgba(255,255,255, 0.3)" else "rgba(205, 237, 246, 0.45)"
      borderWidth := 0 }

/-- Accumulator of the `reduce` in `annotateDayChanges`: the most recently
seen provider-local date string and the boundary indices pushed so far. -/
structure DayAcc where
  lastDate : String
  indices : List Nat
deriving DecidableEq, Repr

/-- The `reduce` of `annotateDayChanges` (lines 141–150): walk the dataset
with its indices; when the local date differs from `lastDate`, push the
index — but only if `lastDate` is truthy, i.e. not the initial empty
string — and remember the new date.  `fd` models `finnishDate ∘ Date`. -/
def dayChangeAccum (fd : Int → String) (data : List DataPoint) : DayAcc :=
  data.enum.foldl
    (fun acc ip =>
      let date := fd ip.2.x
      if acc.lastDate ≠ date then
        { lastDate := date
          indices := if acc.lastDate ≠ "" then acc.indices ++ [ip.1] else acc.indices }
      else acc)
    ⟨"", []⟩

/-- The step function folded by `dayChangeAccum`, restated standalone so the
proofs can reason about one step at a time; definitionally the same lambda. -/
def dayStep (fd : Int → String) (acc : DayAcc) (ip : Nat × DataPoint) : DayAcc :=
  let date := fd ip.2.x
  if acc.lastDate ≠ date then
    { lastDate := date
      indices := if acc.lastDate ≠ "" then acc.indices ++ [ip.1] else acc.indices }
  else acc

/-- The day-boundary indices the reduce produces. -/
def dayChangeIndices (fd : Int → String) (data : List DataPoint) : List Nat :=
  (dayChangeAccum fd data).indices

/-- Line colour used by `annotateDayChanges`. -/
def dayLineColor (darkMode : Bool) : String :=
  if darkMode then "rgba(255,255,255,0.5)" else "rgba(0,0,0,0.5)"

/-- `annotateDayChanges`: one vertical line at `i - 0.5` per boundary index,
and — when the dataset is non-empty — weekday labels built from
`[0, ...indices]`, each positioned at `i + 1` and carrying the weekday of
the entry at index `i`, with the final one dropped (`slice(0, -1)`).
`fw` models `finnishWeekday ∘ Date`. -/
def annotateDayChanges (fd fw : Int → String) (darkMode : Bool)
    (data : List DataPoint) : List Ann :=
  let foo := dayChangeAccum fd data
  let a1 : List Ann := foo.indices.map fun (i : Nat) =>
    .line { yMin := 0, yMax := maxPrice, xMin := (i : ℚ) - 0.5, xMax := (i : ℚ) - 0.5
            borderColor := dayLineColor darkMode }
  if data.length > 0 then
    let a2 : List Ann := ((0 :: foo.indices).map fun (i : Nat) =>
      .label { xValue := (i : ℚ) + 1, position := "start", yValue := maxPrice - 1
               content := fw (data.getD i dummyPoint).x
               color := dayLineColor darkMode }).dropLast
    a1 ++ a2
  else a1

/-- The line markers of an annotation list, in order. -/
def lineAnns (l : List Ann) : List LineAnn :=
  l.filterMap fun a => match a with | .line x => some x | _ => none

/-- The label markers of an annotation list, in order. -/
def labelAnns (l : List Ann) : List LabelAnn :=
  l.filterMap fun a => match a with | .label x => some x | _ => none

/-! ## Reference predicates and helper functions for the proofs -/

/-- Entries with the same value are contiguous in `dl`: whenever the values
at positions `i ≤ j ≤ k` have `dl[i] = dl[k]`, the value at `j` agrees too.
Stated with bounded quantifiers so it is decidable on concrete lists. -/
def Contiguous (dl : List String) : Prop :=
  ∀ k, k < dl.length → ∀ j, j ≤ k → ∀ i, i ≤ j →
    dl.getD i "" = dl.getD k "" → dl.getD j "" = dl.getD i ""

instance (dl : List String) : Decidable (Contiguous dl) := by
  unfold Contiguous
  exact Nat.decidableBallLT _ _

/-- Reference day-change scan: with `prev` the date of the entry just before
position `n`, emit `n` when the date at `n` differs from `prev`, then
continue. -/
def changesG (prev : String) (n : Nat) : List String → List Nat
  | [] => []
  | d :: t => (if prev ≠ d then [n] else []) ++ changesG d (n + 1) t

/-- Last element of `prev :: l`. -/
def lastD (prev : String) : List String → String
  | [] => prev
  | d :: t => lastD d t

/-- The provider-local date strings of a dataset. -/
def localDates (fd : Int → String) (data : List DataPoint) : List String :=
  data.map fun p => fd p.x

/-! ## Concrete scenario inputs used by the spec's test scenarios -/

/-- Scenario series: 48 hourly points covering two consecutive dates,
starting 2023-06-15T00:00Z. -/
def scenarioSeries : List DataPoint :=
  (List.range 48).map fun i => ⟨utc 2023 6 15 0 0 + 3600000 * (i : Int), 1⟩

/-- Scenario instant: the 10th point's `startTime` plus 30 minutes. -/
def scenarioNow : Int := utc 2023 6 15 9 30

/-- The current-hour box the scenario must produce (light mode): spans
`[8.5, 9.5]` horizontally, the full value range vertically. -/
def scenarioBox : BoxAnn :=
  ⟨8.5, 9.5, 0, 100, "rgba(205, 237, 246, 0.45)", 0⟩

/-- Concrete local-date function for witnesses: date flips after two
entries. -/
def fdW : Int → String := fun t => if t < 2 then "2023-06-15" else "2023-06-16"

/-- Concrete weekday function for witnesses. -/
def fwW : Int → String := fun t => if t < 2 then "torstai" else "perjantai"

/-- Concrete four-point, two-day dataset for witnesses. -/
def dataW : List DataPoint := [⟨0, 1⟩, ⟨1, 2⟩, ⟨2, 3⟩, ⟨3, 4⟩]

/-- Concrete settled fetch results for witnesses: all three dates resolve,
with one hour price each, hours in chronological order. -/
def settledW : List (Option DayPrice) :=
  [some ⟨"2023-06-14", [⟨-3600000, 1⟩]⟩,
   some ⟨"2023-06-15", [⟨0, 2⟩]⟩,
   some ⟨"2023-06-16", [⟨86400000, 3⟩]⟩]

/-- Concrete local-date function consistent with `settledW`'s date fields. -/
def fdW8 : Int → String := fun t =>
  if t < 0 then "2023-06-14" else if t < 86400000 then "2023-06-15" else "2023-06-16"

/-! # Theorems -/

/-- C1: the refresh scheduler is claimed to advance `nextUpdate` by one day
exactly when the last entry's date is strictly after "now"'s date, including
across year boundaries.  The code compares only `getUTCDate` and
`getUTCMonth`, never the year, so on 2023-12-31 with the last entry on
2024-01-01 (a strictly later date: its epoch-day count is larger) it fails
to advance and leaves `nextUpdate` at 2023-12-31T12:00Z — contradicting the
source's own comment "Otherwise tomorrow at noonish". -/
theorem nextUpdate_misses_year_boundary :
    epochDays (utc 2023 12 31 13 0) < epochDays (utc 2024 1 1 10 0) ∧
    nextUpdateModel (utc 2024 1 1 10 0) (utc 2023 12 31 13 0) = utc 2023 12 31 12 0 ∧
    utc 2023 12 31 12 0 ≠ utc 2024 1 1 12 0 := by
  refine ⟨by decide, by decide, by decide⟩

/-- C2 counterexample: when zero of the three date fetches resolve, the
cycle does not fail with an explicit `DataUnavailable` result value — it
aborts with an uncaught `TypeError`, thrown by the property access
`dataset.slice(-1)[0].x` on an empty dataset. -/
theorem allFetchesFail_is_uncaught_abort :
    getStaticPropsModel [none, none, none] 0 = .error .typeError := rfl

/-- C2 (amended): whenever no fetch resolves, the cycle aborts with the
uncaught `TypeError` (so no `Series` is produced), rather than returning an
explicit `DataUnavailable` result value. -/
theorem allFetchesFail_aborts (settled : List (Option DayPrice)) (now : Int)
    (h : settled.filterMap id = []) :
    getStaticPropsModel settled now = .error .typeError := by
  unfold getStaticPropsModel assembleResults buildDataset
  simp [h]

/-- C2 witness: the amended statement applies to a concrete all-failed cycle. -/
theorem allFetchesFail_aborts_witness :
    getStaticPropsModel [none, none] 5 = .error .typeError :=
  allFetchesFail_aborts [none, none] 5 rfl

/-- C5: `dataValidForSeconds` is exactly
`max(floor((nextUpdate − now) / 1000), 60)`, hence always at least 60; and
at 11:00 UTC with no tomorrow data (last entry on the same UTC date) it is
exactly 3600 seconds. -/
theorem dataValidForSeconds_spec :
    (∀ l n, dataValidForSeconds l n =
        max (Int.fdiv (nextUpdateModel l n - n) 1000) 60) ∧
    (∀ l n, 60 ≤ dataValidForSeconds l n) ∧
    dataValidForSeconds (utc 2023 6 15 21 0) (utc 2023 6 15 11 0) = 3600 := by
  refine ⟨fun l n => rfl, fun l n => le_max_right _ _, by decide⟩

/-- C6 counterexample: with the last entry on 2023-06-16 and two instants
11:59:58 and 11:59:59 on that day — both strictly before the shared
`nextUpdate` of 12:00:00 — `dataValidForSeconds` yields 60 for both, so it
does not strictly decrease as "now" increases below `nextUpdate`. -/
theorem secondsRemaining_not_strictly_decreasing :
    utc 2023 6 16 11 59 + 58000 < utc 2023 6 16 11 59 + 59000 ∧
    utc 2023 6 16 11 59 + 59000 <
      nextUpdateModel (utc 2023 6 16 21 0) (utc 2023 6 16 11 59 + 58000) ∧
    nextUpdateModel (utc 2023 6 16 21 0) (utc 2023 6 16 11 59 + 58000) =
      nextUpdateModel (utc 2023 6 16 21 0) (utc 2023 6 16 11 59 + 59000) ∧
    dataValidForSeconds (utc 2023 6 16 21 0) (utc 2023 6 16 11 59 + 58000) =
      dataValidForSeconds (utc 2023 6 16 21 0) (utc 2023 6 16 11 59 + 59000) := by
  refine ⟨by decide, by decide, by decide, by decide⟩

/-- C6 (amended): for a fixed series and a fixed `nextUpdate` (two instants
on the same UTC date give the same `nextUpdate`), `dataValidForSeconds`
never increases as "now" increases; strictness can fail within one second
and at the 60-second floor. -/
theorem secondsRemaining_antitone (l n₁ n₂ : Int)
    (hU : nextUpdateModel l n₁ = nextUpdateModel l n₂) (h : n₁ ≤ n₂) :
    dataValidForSeconds l n₂ ≤ dataValidForSeconds l n₁ := by
  unfold dataValidForSeconds
  rw [← hU]
  have hmono : Int.fdiv (nextUpdateModel l n₁ - n₂) 1000 ≤
      Int.fdiv (nextUpdateModel l n₁ - n₁) 1000 := by
    rw [Int.fdiv_eq_ediv _ (by norm_num), Int.fdiv_eq_ediv _ (by norm_num)]
    exact Int.ediv_le_ediv (by norm_num) (by omega)
  exact max_le_max hmono (le_refl 60)

/-- C6 witness: the amended monotonicity applies to the concrete instants of
the counterexample. -/
theorem secondsRemaining_antitone_witness :
    dataValidForSeconds (utc 2023 6 16 21 0) (utc 2023 6 16 11 0) ≤
      dataValidForSeconds (utc 2023 6 16 21 0) (utc 2023 6 16 10 0) :=
  secondsRemaining_antitone (utc 2023 6 16 21 0) (utc 2023 6 16 10 0)
    (utc 2023 6 16 11 0) (by decide) (by decide)

/-! ## Locator lemmas -/

theorem inHourInterval_true_iff (now start : Int) :
    inHourInterval now start = true ↔ start ≤ now ∧ now < start + 3600000 := by
  simp [inHourInterval]

theorem inHourInterval_false_iff (now start : Int) :
    inHourInterval now start = false ↔ ¬(start ≤ now ∧ now < start + 3600000) := by
  rw [← Bool.not_eq_true, not_iff_not, inHourInterval_true_iff]

theorem getD_eq_get (l : List α) (d : α) {n : Nat} (hn : n < l.length) :
    l.getD n d = l.get ⟨n, hn⟩ := by
  rw [List.getD_eq_getElem l d hn, List.get_eq_getElem]

theorem findIdxO_eq_none_iff (p : α → Bool) (l : List α) :
    findIdxO p l = none ↔ ∀ a ∈ l, p a = false := by
  induction l with
  | nil => simp [findIdxO]
  | cons a t ih =>
    rw [findIdxO]
    by_cases ha : p a = true
    · simp [ha]
    · rw [if_neg ha]
      simp only [Option.map_eq_none', ih]
      constructor
      · intro hall b hb
        rcases List.mem_cons.mp hb with hb | hb
        · subst hb; exact Bool.not_eq_true _ ▸ (by simpa using ha)
        · exact hall b hb
      · intro hall b hb
        exact hall b (List.mem_cons_of_mem a hb)

theorem findIdxO_eq_some (p : α → Bool) (l : List α) (i : Nat) (d : α)
    (h : findIdxO p l = some i) :
    i < l.length ∧ p (l.getD i d) = true ∧ ∀ j, j < i → p (l.getD j d) = false := by
  induction l generalizing i with
  | nil => simp [findIdxO] at h
  | cons a t ih =>
    rw [findIdxO] at h
    by_cases ha : p a = true
    · rw [if_pos ha] at h
      injection h with h
      subst h
      exact ⟨Nat.succ_pos _, by simpa using ha,
        fun j hj => absurd hj (Nat.not_lt_zero j)⟩
    · rw [if_neg ha] at h
      cases ht : findIdxO p t with
      | none => rw [ht] at h; simp at h
      | some i' =>
        rw [ht, Option.map_some'] at h
        injection h with h
        subst h
        obtain ⟨h1, h2, h3⟩ := ih i' ht
        refine ⟨Nat.succ_lt_succ h1, by simpa using h2, ?_⟩
        intro j hj
        cases j with
        | zero => simpa using Bool.not_eq_true _ ▸ ha
        | succ j' => simpa using h3 j' (Nat.lt_of_succ_lt_succ hj)

/-- C4: assuming the series's hour intervals are pairwise non-overlapping,
`findCurrentTimeIndex` returns `-1` exactly when "now" lies outside every
interval `[startTime, startTime + 1h)`, and whenever the interval of the
entry at index `i` contains "now" it returns exactly that `i` — so the
returned index is unique. -/
theorem findCurrentTimeIndex_spec (data : List DataPoint) (now : Int)
    (hdisj : data.Pairwise fun a b => a.x + 3600000 ≤ b.x ∨ b.x + 3600000 ≤ a.x) :
    (findCurrentTimeIndex data now = -1 ↔
      ∀ p ∈ data, ¬(p.x ≤ now ∧ now < p.x + 3600000)) ∧
    (∀ i : Fin data.length,
      (data.get i).x ≤ now ∧ now < (data.get i).x + 3600000 →
      findCurrentTimeIndex data now = ((i : Nat) : Int)) := by
  unfold findCurrentTimeIndex jsFindIndex
  cases hO : findIdxO (fun point => inHourInterval now point.x) data with
  | none =>
    rw [findIdxO_eq_none_iff] at hO
    constructor
    · simp only [true_iff]
      intro p hp hc
      exact absurd hc ((inHourInterval_false_iff now p.x).mp (hO p hp))
    · intro i hc
      exact absurd hc
        ((inHourInterval_false_iff now (data.get i).x).mp
          (hO _ (List.get_mem data i.1 i.2)))
  | some j =>
    obtain ⟨hjlen, hjp, hjmin⟩ :=
      findIdxO_eq_some (fun point => inHourInterval now point.x) data j dummyPoint hO
    rw [getD_eq_get data dummyPoint hjlen] at hjp
    replace hjp := (inHourInterval_true_iff now _).mp hjp
    constructor
    · constructor
      · intro habs
        have habs2 : ((j : Nat) : Int) = -1 := habs
        exfalso
        omega
      · intro hall
        exact absurd hjp (hall _ (List.get_mem data j hjlen))
    · intro i hc
      rcases Nat.lt_trichotomy j i.1 with hlt | heq | hgt
      · exfalso
        have hrel := List.pairwise_iff_get.mp hdisj ⟨j, hjlen⟩ i hlt
        rcases hrel with hrel | hrel <;> omega
      · show ((j : Nat) : Int) = ((i.1 : Nat) : Int)
        rw [heq]
      · have hmin := hjmin i.1 hgt
        rw [getD_eq_get data dummyPoint (Nat.lt_trans hgt hjlen)] at hmin
        replace hmin := (inHourInterval_false_iff now _).mp hmin
        have : data.get ⟨i.1, Nat.lt_trans hgt hjlen⟩ = data.get i := by
          congr 1
        rw [this] at hmin
        exact absurd hc hmin

/-- C4 witness: the locator specification applies to a concrete two-entry
series with disjoint hour intervals. -/
theorem findCurrentTimeIndex_spec_witness :
    (findCurrentTimeIndex [⟨0, 1⟩, ⟨3600000, 2⟩] 1800000 = -1 ↔
      ∀ p ∈ ([⟨0, 1⟩, ⟨3600000, 2⟩] : List DataPoint),
        ¬(p.x ≤ 1800000 ∧ 1800000 < p.x + 3600000)) ∧
    (∀ i : Fin ([⟨0, 1⟩, ⟨3600000, 2⟩] : List DataPoint).length,
      (([⟨0, 1⟩, ⟨3600000, 2⟩] : List DataPoint).get i).x ≤ 1800000 ∧
        1800000 < (([⟨0, 1⟩, ⟨3600000, 2⟩] : List DataPoint).get i).x + 3600000 →
      findCurrentTimeIndex [⟨0, 1⟩, ⟨3600000, 2⟩] 1800000 = ((i : Nat) : Int)) :=
  findCurrentTimeIndex_spec [⟨0, 1⟩, ⟨3600000, 2⟩] 1800000 (by decide)

/-! ## Day-boundary scan lemmas -/

theorem mem_changesG (l : List String) : ∀ (prev : String) (n i : Nat),
    i ∈ changesG prev n l ↔
      ∃ j, j < l.length ∧ i = n + j ∧ l.getD j "" ≠ (prev :: l).getD j "" := by
  induction l with
  | nil => intro prev n i; simp [changesG]
  | cons d t ih =>
    intro prev n i
    rw [changesG, List.mem_append]
    constructor
    · rintro (h | h)
      · by_cases hpd : prev = d
        · rw [if_neg (by simpa using hpd)] at h
          simp at h
        · rw [if_pos hpd] at h
          rw [List.mem_singleton] at h
          refine ⟨0, Nat.succ_pos _, by omega, ?_⟩
          simp only [List.getD_cons_zero]
          exact Ne.symm hpd
      · obtain ⟨j, hj, hij, hne⟩ := (ih d (n + 1) i).mp h
        refine ⟨j + 1, Nat.succ_lt_succ hj, by omega, ?_⟩
        simpa only [List.getD_cons_succ] using hne
    · rintro ⟨j, hj, hij, hne⟩
      cases j with
      | zero =>
        left
        simp only [List.getD_cons_zero] at hne
        rw [if_pos (Ne.symm hne), List.mem_singleton]
        omega
      | succ j' =>
        right
        refine (ih d (n + 1) i).mpr ⟨j', Nat.lt_of_succ_lt_succ hj, by omega, ?_⟩
        simpa only [List.getD_cons_succ] using hne

theorem changesG_eq_nil (l : List String) : ∀ (prev : String) (n : Nat),
    (∀ d ∈ l, d = prev) → changesG prev n l = [] := by
  induction l with
  | nil => intro prev n _; rfl
  | cons d t ih =>
    intro prev n hall
    have hd : d = prev := hall d (List.mem_cons_self d t)
    rw [changesG, if_neg (by simp [hd]), List.nil_append, hd]
    exact ih prev (n + 1) fun q hq => hall q (List.mem_cons_of_mem d hq)

/-! ## Contiguity lemmas -/

theorem Contiguous.tail {a : String} {t : List String}
    (h : Contiguous (a :: t)) : Contiguous t := by
  intro k hk j hj i hi heq
  have := h (k + 1) (Nat.succ_lt_succ hk) (j + 1) (Nat.succ_le_succ hj)
    (i + 1) (Nat.succ_le_succ hi)
  simp only [List.getD_cons_succ] at this
  exact this heq

theorem Contiguous.head_notin_of_ne {a b : String} {t : List String}
    (h : Contiguous (a :: b :: t)) (hab : a ≠ b) : a ∉ b :: t := by
  intro hmem
  obtain ⟨k, hk, hka⟩ := List.mem_iff_getElem.mp hmem
  have hka2 : (b :: t).getD k "" = a := by
    rw [List.getD_eq_getElem _ _ hk]; exact hka
  have h1 := h (k + 1) (Nat.succ_lt_succ hk) 1 (Nat.succ_le_succ (Nat.zero_le k))
    0 (Nat.zero_le 1)
  simp only [List.getD_cons_succ, List.getD_cons_zero] at h1
  exact hab (h1 hka2.symm).symm

theorem changesG_count (l : List String) : ∀ (prev : String) (n : Nat),
    Contiguous (prev :: l) →
    (changesG prev n l).length + 1 = (prev :: l).dedup.length := by
  induction l with
  | nil => intro prev n _; simp [changesG]
  | cons d t ih =>
    intro prev n hcont
    by_cases hpd : prev = d
    · rw [changesG, if_neg (by simpa using hpd), List.nil_append]
      rw [List.dedup_cons_of_mem (hpd ▸ List.mem_cons_self d t)]
      have := ih d (n + 1) (hpd ▸ hcont.tail)
      exact this
    · rw [changesG, if_pos hpd, List.singleton_append, List.length_cons]
      rw [List.dedup_cons_of_not_mem (hcont.head_notin_of_ne hpd),
        List.length_cons]
      rw [ih d (n + 1) hcont.tail]

/-! ## Fold equivalence for `dayChangeAccum` -/

theorem dayChangeAccum_eq_foldl (fd : Int → String) (data : List DataPoint) :
    dayChangeAccum fd data = data.enum.foldl (dayStep fd) ⟨"", []⟩ := rfl

theorem foldl_dayStep (fd : Int → String) (data : List DataPoint) :
    ∀ (n : Nat) (acc : DayAcc), acc.lastDate ≠ "" →
      (∀ p ∈ data, fd p.x ≠ "") →
      (List.enumFrom n data).foldl (dayStep fd) acc =
        ⟨lastD acc.lastDate (localDates fd data),
          acc.indices ++ changesG acc.lastDate n (localDates fd data)⟩ := by
  induction data with
  | nil => intro n acc _ _; simp [localDates, lastD, changesG]
  | cons p t ih =>
    intro n acc hne hall
    rw [List.enumFrom_cons, List.foldl_cons]
    have hdates : localDates fd (p :: t) = fd p.x :: localDates fd t := rfl
    by_cases hd : acc.lastDate = fd p.x
    · have hstep : dayStep fd acc (n, p) = acc := by
        simp [dayStep, hd]
      rw [hstep, ih (n + 1) acc hne fun q hq => hall q (List.mem_cons_of_mem p hq)]
      rw [hdates]
      rw [show lastD acc.lastDate (fd p.x :: localDates fd t)
          = lastD (fd p.x) (localDates fd t) from rfl]
      rw [show changesG acc.lastDate n (fd p.x :: localDates fd t)
          = (if acc.lastDate ≠ fd p.x then [n] else [])
            ++ changesG (fd p.x) (n + 1) (localDates fd t) from rfl]
      rw [if_neg (by simpa using hd), List.nil_append, hd]
    · have hstep : dayStep fd acc (n, p) = ⟨fd p.x, acc.indices ++ [n]⟩ := by
        simp only [dayStep]
        rw [if_pos hd, if_pos hne]
      rw [hstep, ih (n + 1) ⟨fd p.x, acc.indices ++ [n]⟩
        (hall p (List.mem_cons_self p t))
        fun q hq => hall q (List.mem_cons_of_mem p hq)]
      rw [hdates]
      rw [show lastD acc.lastDate (fd p.x :: localDates fd t)
          = lastD (fd p.x) (localDates fd t) from rfl]
      rw [show changesG acc.lastDate n (fd p.x :: localDates fd t)
          = (if acc.lastDate ≠ fd p.x then [n] else [])
            ++ changesG (fd p.x) (n + 1) (localDates fd t) from rfl]
      rw [if_pos hd, List.append_assoc]

theorem dayChangeIndices_nil (fd : Int → String) :
    dayChangeIndices fd [] = [] := rfl

theorem dayChangeIndices_cons (fd : Int → String) (p : DataPoint)
    (t : List DataPoint) (h0 : fd p.x ≠ "")
    (hall : ∀ q ∈ t, fd q.x ≠ "") :
    dayChangeIndices fd (p :: t) = changesG (fd p.x) 1 (localDates fd t) := by
  unfold dayChangeIndices
  rw [dayChangeAccum_eq_foldl, List.enum_cons, List.foldl_cons]
  have hstep : dayStep fd ⟨"", []⟩ (0, p) = ⟨fd p.x, []⟩ := by
    simp only [dayStep]
    rw [if_pos (Ne.symm h0)]
    simp
  rw [hstep, foldl_dayStep fd t 1 ⟨fd p.x, []⟩ h0 hall]
  simp

/-! ## Annotation extraction lemmas -/

theorem localDates_getD (fd : Int → String) (t : List DataPoint) {j : Nat}
    (hj : j < t.length) :
    (localDates fd t).getD j "" = fd ((t.getD j dummyPoint).x) := by
  have hj2 : j < (localDates fd t).length := by
    simpa [localDates] using hj
  rw [List.getD_eq_getElem _ _ hj2, List.getD_eq_getElem _ _ hj]
  simp [localDates]

theorem lineAnns_append (l1 l2 : List Ann) :
    lineAnns (l1 ++ l2) = lineAnns l1 ++ lineAnns l2 :=
  List.filterMap_append l1 l2 _

theorem labelAnns_append (l1 l2 : List Ann) :
    labelAnns (l1 ++ l2) = labelAnns l1 ++ labelAnns l2 :=
  List.filterMap_append l1 l2 _

theorem lineAnns_map_line (f : Nat → LineAnn) (l : List Nat) :
    lineAnns (l.map fun i => Ann.line (f i)) = l.map f := by
  unfold lineAnns
  rw [List.filterMap_map]
  exact congrFun (List.filterMap_eq_map f) l

theorem labelAnns_map_line (f : Nat → LineAnn) (l : List Nat) :
    labelAnns (l.map fun i => Ann.line (f i)) = [] := by
  unfold labelAnns
  rw [List.filterMap_map]
  rw [List.filterMap_eq_nil_iff]
  intro a _
  rfl

theorem labelAnns_map_label (f : Nat → LabelAnn) (l : List Nat) :
    labelAnns (l.map fun i => Ann.label (f i)) = l.map f := by
  unfold labelAnns
  rw [List.filterMap_map]
  exact congrFun (List.filterMap_eq_map f) l

theorem lineAnns_map_label (f : Nat → LabelAnn) (l : List Nat) :
    lineAnns (l.map fun i => Ann.label (f i)) = [] := by
  unfold lineAnns
  rw [List.filterMap_map]
  rw [List.filterMap_eq_nil_iff]
  intro a _
  rfl

/-- C7: a day-boundary line is emitted exactly at the indices `i ≥ 1` whose
provider-local date differs from the date at `i − 1` (index 0 is never a
boundary), and — when entries sharing a local date are contiguous and the
series is non-empty — the boundary count is one less than the number of
distinct local dates.  The hypothesis `fd p.x ≠ ""` records that real
locale date strings are never empty (the reduce's `if (acc.lastDate)`
truthiness test relies on it). -/
theorem dayBoundary_spec (fd fw : Int → String) (darkMode : Bool)
    (data : List DataPoint) (hne : ∀ p ∈ data, fd p.x ≠ "") :
    (lineAnns (annotateDayChanges fd fw darkMode data) =
      (dayChangeIndices fd data).map fun i =>
        { yMin := 0, yMax := maxPrice, xMin := (i : ℚ) - 0.5, xMax := (i : ℚ) - 0.5
          borderColor := dayLineColor darkMode }) ∧
    (∀ i : Nat, i ∈ dayChangeIndices fd data ↔
      1 ≤ i ∧ i < data.length ∧
        fd ((data.getD i dummyPoint).x) ≠ fd ((data.getD (i - 1) dummyPoint).x)) ∧
    (data ≠ [] → Contiguous (localDates fd data) →
      (dayChangeIndices fd data).length + 1 = (localDates fd data).dedup.length) := by
  refine ⟨?_, ?_, ?_⟩
  · simp only [annotateDayChanges]
    by_cases h : data.length > 0
    · rw [if_pos h, lineAnns_append, lineAnns_map_line, ← List.map_dropLast,
        lineAnns_map_label, List.append_nil]
      rfl
    · rw [if_neg h, lineAnns_map_line]
      rfl
  · intro i
    cases data with
    | nil => rw [dayChangeIndices_nil]; simp
    | cons p t =>
      have h0 : fd p.x ≠ "" := hne p (List.mem_cons_self p t)
      have hall : ∀ q ∈ t, fd q.x ≠ "" := fun q hq => hne q (List.mem_cons_of_mem p hq)
      rw [dayChangeIndices_cons fd p t h0 hall, mem_changesG]
      constructor
      · rintro ⟨j, hj, rfl, hne2⟩
        have hjt : j < t.length := by simpa [localDates] using hj
        refine ⟨by omega, by simp only [List.length_cons]; omega, ?_⟩
        have e1 : (localDates fd t).getD j "" = fd ((t.getD j dummyPoint).x) :=
          localDates_getD fd t hjt
        have e2 : (localDates fd (p :: t)).getD j "" =
            fd (((p :: t).getD j dummyPoint).x) :=
          localDates_getD fd (p :: t) (Nat.lt_succ_of_lt hjt)
        have hcons : (fd p.x :: localDates fd t) = localDates fd (p :: t) := rfl
        rw [e1, hcons, e2] at hne2
        have hidx : 1 + j = j + 1 := Nat.add_comm 1 j
        rw [hidx, List.getD_cons_succ]
        have hidx2 : j + 1 - 1 = j := rfl
        rw [hidx2]
        exact hne2
      · rintro ⟨h1, h2, hne2⟩
        have hj : i - 1 < t.length := by
          simp only [List.length_cons] at h2
          omega
        refine ⟨i - 1, by simpa [localDates] using hj, by omega, ?_⟩
        have e1 : (localDates fd t).getD (i - 1) "" =
            fd ((t.getD (i - 1) dummyPoint).x) :=
          localDates_getD fd t hj
        have e2 : (localDates fd (p :: t)).getD (i - 1) "" =
            fd (((p :: t).getD (i - 1) dummyPoint).x) :=
          localDates_getD fd (p :: t) (Nat.lt_succ_of_lt hj)
        have hcons : (fd p.x :: localDates fd t) = localDates fd (p :: t) := rfl
        rw [e1, hcons, e2]
        have hidx : i = (i - 1) + 1 := by omega
        rw [hidx, List.getD_cons_succ] at hne2
        have hidx2 : (i - 1) + 1 - 1 = i - 1 := rfl
        rw [hidx2] at hne2
        exact hne2
  · intro hne0 hcont
    cases data with
    | nil => exact absurd rfl hne0
    | cons p t =>
      have h0 : fd p.x ≠ "" := hne p (List.mem_cons_self p t)
      have hall : ∀ q ∈ t, fd q.x ≠ "" := fun q hq => hne q (List.mem_cons_of_mem p hq)
      rw [dayChangeIndices_cons fd p t h0 hall]
      exact changesG_count (localDates fd t) (fd p.x) 1 hcont

/-- C7 witness: the boundary characterisation and the distinct-date count
hold on a concrete four-point two-day dataset. -/
theorem dayBoundary_spec_witness :
    (lineAnns (annotateDayChanges fdW fwW false dataW) =
      (dayChangeIndices fdW dataW).map fun i =>
        { yMin := 0, yMax := maxPrice, xMin := (i : ℚ) - 0.5, xMax := (i : ℚ) - 0.5
          borderColor := dayLineColor false }) ∧
    (∀ i : Nat, i ∈ dayChangeIndices fdW dataW ↔
      1 ≤ i ∧ i < dataW.length ∧
        fdW ((dataW.getD i dummyPoint).x) ≠ fdW ((dataW.getD (i - 1) dummyPoint).x)) ∧
    (dayChangeIndices fdW dataW).length + 1 = (localDates fdW dataW).dedup.length :=
  ⟨(dayBoundary_spec fdW fwW false dataW (by decide)).1,
   (dayBoundary_spec fdW fwW false dataW (by decide)).2.1,
   (dayBoundary_spec fdW fwW false dataW (by decide)).2.2 (by decide) (by decide)⟩

/-- C3: for every non-empty series the label pass generates one weekday
label per day-segment start — position 0 plus every boundary index — then
drops the final one (`slice(0, -1)`), each kept label carrying the
provider-local weekday of the entry at its index and positioned just after
it; hence the label count always equals the boundary count, in particular
zero for a single-day series. -/
theorem weekdayLabels_spec (fd fw : Int → String) (darkMode : Bool)
    (data : List DataPoint) (hne : data ≠ []) :
    (labelAnns (annotateDayChanges fd fw darkMode data) =
      ((0 :: dayChangeIndices fd data).dropLast).map fun (i : Nat) =>
        { xValue := (i : ℚ) + 1, position := "start", yValue := maxPrice - 1
          content := fw ((data.getD i dummyPoint).x)
          color := dayLineColor darkMode }) ∧
    (labelAnns (annotateDayChanges fd fw darkMode data)).length =
      (dayChangeIndices fd data).length ∧
    ((∀ p ∈ data, fd p.x ≠ "") →
      (∀ p ∈ data, fd p.x = fd ((data.getD 0 dummyPoint).x)) →
      labelAnns (annotateDayChanges fd fw darkMode data) = []) := by
  have hpos : data.length > 0 := List.length_pos.mpr hne
  have h1 : labelAnns (annotateDayChanges fd fw darkMode data) =
      ((0 :: dayChangeIndices fd data).dropLast).map fun (i : Nat) =>
        { xValue := (i : ℚ) + 1, position := "start", yValue := maxPrice - 1
          content := fw ((data.getD i dummyPoint).x)
          color := dayLineColor darkMode } := by
    simp only [annotateDayChanges]
    rw [if_pos hpos, labelAnns_append, labelAnns_map_line, List.nil_append,
      ← List.map_dropLast, labelAnns_map_label]
    rfl
  refine ⟨h1, ?_, ?_⟩
  · rw [h1, List.length_map, List.length_dropLast, List.length_cons]
    omega
  · intro hne2 hsame
    cases data with
    | nil => exact absurd rfl hne
    | cons p t =>
      have h0 : fd p.x ≠ "" := hne2 p (List.mem_cons_self p t)
      have hall : ∀ q ∈ t, fd q.x ≠ "" :=
        fun q hq => hne2 q (List.mem_cons_of_mem p hq)
      have hB : dayChangeIndices fd (p :: t) = [] := by
        rw [dayChangeIndices_cons fd p t h0 hall]
        apply changesG_eq_nil
        intro d hd
        obtain ⟨q, hq, rfl⟩ := List.mem_map.mp hd
        have := hsame q (List.mem_cons_of_mem p hq)
        simpa using this
      rw [h1, hB]
      rfl

/-- C3 witness: a concrete single-day two-point series has no boundary and
no weekday label. -/
theorem weekdayLabels_spec_witness :
    labelAnns (annotateDayChanges fdW fwW false [⟨0, 1⟩, ⟨1, 2⟩]) = [] :=
  (weekdayLabels_spec fdW fwW false [⟨0, 1⟩, ⟨1, 2⟩] (by decide)).2.2
    (by decide) (by decide)

/-- C8: the assembler keeps at most two day records — a suffix (the most
recent) of the fulfilled fetches — so, provided each record's hours carry
that record's date, the assembled series spans at most 2 distinct local
dates; and when all three of yesterday/today/tomorrow resolve, the oldest
is discarded. -/
theorem seriesWindow_spec (fd : Int → String) (settled : List (Option DayPrice))
    (hdates : ∀ dp ∈ settled.filterMap id, ∀ e ∈ dp.hourPrices,
      fd e.startTime = dp.date) :
    (assembleResults settled).length ≤ 2 ∧
    List.IsSuffix (assembleResults settled) (settled.filterMap id) ∧
    (localDates fd (buildDataset (assembleResults settled))).dedup.length ≤ 2 ∧
    (∀ a b c, settled = [some a, some b, some c] →
      assembleResults settled = [b, c]) := by
  have hlen : (assembleResults settled).length ≤ 2 := by
    unfold assembleResults
    rw [List.length_drop]
    omega
  have hsuffix : List.IsSuffix (assembleResults settled) (settled.filterMap id) :=
    List.drop_suffix _ _
  refine ⟨hlen, hsuffix, ?_, ?_⟩
  · have hsub : ∀ q ∈ localDates fd (buildDataset (assembleResults settled)),
        q ∈ (assembleResults settled).map DayPrice.date := by
      intro q hq
      obtain ⟨pt, hpt, rfl⟩ := List.mem_map.mp hq
      obtain ⟨dp, hdp, hpt2⟩ := List.mem_flatMap.mp hpt
      obtain ⟨e, he, rfl⟩ := List.mem_map.mp hpt2
      have hdpf : dp ∈ settled.filterMap id := List.Sublist.mem hdp hsuffix.sublist
      rw [List.mem_map]
      exact ⟨dp, hdp, (hdates dp hdpf e he).symm⟩
    calc (localDates fd (buildDataset (assembleResults settled))).dedup.length
        = (localDates fd (buildDataset (assembleResults settled))).toFinset.card :=
          (List.card_toFinset _).symm
      _ ≤ ((assembleResults settled).map DayPrice.date).toFinset.card := by
          apply Finset.card_le_card
          intro q hq
          rw [List.mem_toFinset] at hq
          rw [List.mem_toFinset]
          exact hsub q hq
      _ ≤ ((assembleResults settled).map DayPrice.date).length :=
          List.toFinset_card_le _
      _ = (assembleResults settled).length := List.length_map _ _
      _ ≤ 2 := hlen
  · intro a b c h
    subst h
    rfl

/-- C8 witness: with all three concrete fetches fulfilled, the assembler
keeps today and tomorrow, drops yesterday, and the series spans 2 dates. -/
theorem seriesWindow_spec_witness :
    (assembleResults settledW).length ≤ 2 ∧
    List.IsSuffix (assembleResults settledW) (settledW.filterMap id) ∧
    (localDates fdW8 (buildDataset (assembleResults settledW))).dedup.length ≤ 2 ∧
    assembleResults settledW =
      [⟨"2023-06-15", [⟨0, 2⟩]⟩, ⟨"2023-06-16", [⟨86400000, 3⟩]⟩] := by
  have h := seriesWindow_spec fdW8 settledW (by decide)
  exact ⟨h.1, h.2.1, h.2.2.1,
    h.2.2.2 ⟨"2023-06-14", [⟨-3600000, 1⟩]⟩ ⟨"2023-06-15", [⟨0, 2⟩]⟩
      ⟨"2023-06-16", [⟨86400000, 3⟩]⟩ rfl⟩

/-- C9: when each fetched day's hours are strictly increasing by start time
and the fetched days are chronologically ordered (every hour of an earlier
record starts before every hour of a later one), the assembled series is
strictly increasing by start time, hence has no duplicate start times. -/
theorem seriesOrdering_spec (settled : List (Option DayPrice))
    (hinc : ∀ dp ∈ settled.filterMap id,
      (dp.hourPrices.map HourPrice.startTime).Pairwise (· < ·))
    (hchron : (settled.filterMap id).Pairwise fun d1 d2 =>
      ∀ e1 ∈ d1.hourPrices, ∀ e2 ∈ d2.hourPrices,
        e1.startTime < e2.startTime) :
    ((buildDataset (assembleResults settled)).map DataPoint.x).Pairwise (· < ·) ∧
    ((buildDataset (assembleResults settled)).map DataPoint.x).Nodup := by
  have hsl : (assembleResults settled).Sublist (settled.filterMap id) :=
    (List.drop_suffix _ _).sublist
  have hmapx : (buildDataset (assembleResults settled)).map DataPoint.x =
      (assembleResults settled).flatMap fun dp =>
        dp.hourPrices.map HourPrice.startTime := by
    unfold buildDataset
    rw [List.map_flatMap]
    congr 1
    funext dp
    rw [List.map_map]
    rfl
  have hpw : (((assembleResults settled).flatMap fun dp =>
      dp.hourPrices.map HourPrice.startTime).Pairwise (· < ·)) := by
    rw [List.flatMap_def, List.pairwise_flatten]
    constructor
    · intro l2 hl2
      obtain ⟨dp, hdp, rfl⟩ := List.mem_map.mp hl2
      exact hinc dp (List.Sublist.mem hdp hsl)
    · rw [List.pairwise_map]
      have hchron2 := List.Pairwise.sublist hsl hchron
      apply hchron2.imp
      intro d1 d2 h12 x hx y hy
      obtain ⟨e1, he1, rfl⟩ := List.mem_map.mp hx
      obtain ⟨e2, he2, rfl⟩ := List.mem_map.mp hy
      exact h12 e1 he1 e2 he2
  rw [hmapx]
  exact ⟨hpw, hpw.imp fun h => ne_of_lt h⟩

/-- C9 witness: the ordering invariant applies to the concrete three-day
fetch results. -/
theorem seriesOrdering_spec_witness :
    ((buildDataset (assembleResults settledW)).map DataPoint.x).Pairwise (· < ·) ∧
    ((buildDataset (assembleResults settledW)).map DataPoint.x).Nodup :=
  seriesOrdering_spec settledW (by decide) (by decide)

/-- C10: the current-hour box is present exactly when the locator finds an
index; when present it spans `[index − 0.5, index + 0.5]` horizontally and
the full value range `[0, maxPrice]` vertically; and on the concrete
48-point two-day series with "now" 30 minutes past the 10th point's start,
the locator returns 9 and the box spans `[8.5, 9.5]`. -/
theorem currentHourBox_spec (darkMode : Bool) (data : List DataPoint) (now : Int) :
    (annotateCurrentTime darkMode data now = none ↔
      findCurrentTimeIndex data now = -1) ∧
    (∀ b, annotateCurrentTime darkMode data now = some b →
      b.xMin = (findCurrentTimeIndex data now : ℚ) - 0.5 ∧
      b.xMax = (findCurrentTimeIndex data now : ℚ) + 0.5 ∧
      b.yMin = 0 ∧ b.yMax = maxPrice) ∧
    findCurrentTimeIndex scenarioSeries scenarioNow = 9 ∧
    annotateCurrentTime false scenarioSeries scenarioNow = some scenarioBox := by
  have h9 : findCurrentTimeIndex scenarioSeries scenarioNow = 9 := by decide
  refine ⟨?_, ?_, h9, ?_⟩
  · unfold annotateCurrentTime
    by_cases h : findCurrentTimeIndex data now = -1
    · simp [h]
    · simp [h]
  · intro b hb
    unfold annotateCurrentTime at hb
    by_cases h : findCurrentTimeIndex data now = -1
    · simp [h] at hb
    · rw [if_neg h] at hb
      injection hb with hb
      subst hb
      exact ⟨rfl, rfl, rfl, rfl⟩
  · simp only [annotateCurrentTime, h9, scenarioBox, maxPrice]
    norm_num

/-- C10 witness: the box geometry conclusion applies to the concrete
scenario series and box. -/
theorem currentHourBox_spec_witness :
    scenarioBox.xMin = (findCurrentTimeIndex scenarioSeries scenarioNow : ℚ) - 0.5 ∧
    scenarioBox.xMax = (findCurrentTimeIndex scenarioSeries scenarioNow : ℚ) + 0.5 ∧
    scenarioBox.yMin = 0 ∧ scenarioBox.yMax = maxPrice :=
  (currentHourBox_spec false scenarioSeries scenarioNow).2.1 scenarioBox
    (currentHourBox_spec false scenarioSeries scenarioNow).2.2.2

end Tuntihinta
